import Mathlib

/-!
Shallow embedding of the rocoder repository's audio types and installation
controller, with theorems checking the natural-language specification
against the code.

Samples (Rust `f32`) are modelled as rationals `ℚ`; machine-float rounding is
not modelled, but every arithmetic expression mirrors the source expression
structure exactly.  Fallible code (indexing, `unwrap`, unsigned-subtraction
underflow, out-of-bounds slicing) is modelled with `Option`: `none` means the
Rust code panics at that point.
-/

set_option autoImplicit false

/-- Embeds `AudioSpec` from src/audio.rs: channel count and sample rate. -/
structure AudioSpec where
  channels : ℕ
  sample_rate : ℕ
deriving DecidableEq

/-- A chunk is a contiguous sequence of samples for one channel. -/
abbrev Chunk := List ℚ

/-- Embeds `Audio<T>` from src/audio.rs (planar data plus a spec). -/
structure Audio where
  data : List (List ℚ)
  spec : AudioSpec
deriving DecidableEq

/-- Converts a nonnegative duration in seconds to a sample position, mirroring
`(dur.as_secs_f64() * sample_rate as f64) as usize` (truncation toward zero,
saturating at 0). -/
def durToSamples (dur_secs : ℚ) (sample_rate : ℕ) : ℕ :=
  (Int.floor (dur_secs * (sample_rate : ℚ))).toNat

/-- Embeds `Audio::resolve_start_sample_pos` from src/audio.rs. -/
def resolve_start_sample_pos (a : Audio) (start_offset : Option ℚ) : ℕ :=
  match start_offset with
  | some offset => durToSamples offset a.spec.sample_rate
  | none => 0

/-- Embeds `Audio::resolve_end_sample_pos` from src/audio.rs.  In the `None`
case the Rust code evaluates `self.data.get(0).unwrap().len()`, which panics
when there are no channels; that panic is `none` here. -/
def resolve_end_sample_pos (a : Audio) (start_sample_pos : ℕ)
    (duration : Option ℚ) : Option ℕ :=
  match duration with
  | some dur => some (start_sample_pos + durToSamples dur a.spec.sample_rate)
  | none => a.data.head?.map List.length

/-- Embeds the range slice `channel[start..end].to_vec()`: defined only when
`start ≤ end ≤ channel.length`, otherwise the Rust code panics. -/
def sliceChannel (start_pos end_pos : ℕ) (channel : List ℚ) : Option (List ℚ) :=
  if start_pos ≤ end_pos ∧ end_pos ≤ channel.length then
    some ((channel.drop start_pos).take (end_pos - start_pos))
  else none

/-- Sequences a panic-modelling `Option`-valued function over a list:
`none` as soon as `f` is `none` on an element (the modelled Rust code
panics at that element). -/
def optionTraverse {A B : Type} (f : A → Option B) : List A → Option (List B)
  | [] => some []
  | x :: xs => do
    let y ← f x
    let ys ← optionTraverse f xs
    pure (y :: ys)

/-- Embeds `Audio::clip_in_place` from src/audio.rs.  Returns the audio with
clipped channels, or `none` where the Rust code panics. -/
def clip_in_place (a : Audio) (start_offset duration : Option ℚ) : Option Audio := do
  let start_sample_pos := resolve_start_sample_pos a start_offset
  let end_sample_pos ← resolve_end_sample_pos a start_sample_pos duration
  let data ← optionTraverse (sliceChannel start_sample_pos end_sample_pos) a.data
  pure { a with data := data }

/-- Every pair of channels of the audio has the same length. -/
def channelsEqualLength (a : Audio) : Prop :=
  ∀ c1 ∈ a.data, ∀ c2 ∈ a.data, c1.length = c2.length

instance (a : Audio) : Decidable (channelsEqualLength a) := by
  unfold channelsEqualLength; infer_instance

/-- Embeds `InstallationProcessorControlMessage` from
src/installation_processor.rs. -/
inductive InstallationProcessorControlMessage where
  | Shutdown
deriving DecidableEq

/-- Result of `crossbeam_channel::Receiver::try_recv` on the control channel. -/
inductive TryRecvResult where
  | ok (msg : InstallationProcessorControlMessage)
  | empty
  | disconnected
deriving DecidableEq

/-- Embeds `ProcessorState` from the node runtime. -/
inductive ProcessorState where
  | Running
  | Finished
deriving DecidableEq

/-- Embeds `InstallationProcessor::handle_control_messages` from
src/installation_processor.rs lines 252-263 (the `Result` wrapper is always
`Ok` and is omitted). -/
def handle_control_messages : TryRecvResult → ProcessorState
  | TryRecvResult.ok InstallationProcessorControlMessage.Shutdown =>
      ProcessorState.Finished
  | TryRecvResult.disconnected => ProcessorState.Finished
  | TryRecvResult.empty => ProcessorState.Running

/-- Embeds `InstallationProcessorConfig` from src/installation_processor.rs.
Durations are rational seconds. -/
structure InstallationProcessorConfig where
  spec : AudioSpec
  max_stretchers : ℕ
  max_snippet_dur : ℚ
  ambient_volume_window_dur : ℚ
  current_volume_window_dur : ℚ
  amp_activation_factor : ℚ
  window_sizes : List ℕ
  min_stretch_factor : ℚ
  max_stretch_factor : ℚ
deriving DecidableEq

/-- Embeds `InstallationProcessorConfig::default` from
src/installation_processor.rs lines 47-64. -/
def defaultConfig : InstallationProcessorConfig where
  spec := { channels := 2, sample_rate := 44100 }
  max_stretchers := 10
  max_snippet_dur := 1
  ambient_volume_window_dur := 10
  current_volume_window_dur := 3 / 10
  amp_activation_factor := 3 / 2
  window_sizes := [8192]
  min_stretch_factor := 6
  max_stretch_factor := 12

/-- Embeds `ListeningState` from src/installation_processor.rs. -/
inductive ListeningState where
  | Idle
  | Active
deriving DecidableEq

/-- Embeds the constant `rec_buf_chunks` from src/installation_processor.rs
line 89. -/
def rec_buf_chunks : ℕ := 1024

/-- Embeds the window-size computation of src/installation_processor.rs lines
90-95: `(dur.as_secs_f32() * sample_rate as f32) as usize * channels as usize`,
a window expressed in samples-across-all-channels. -/
def windowSizeOf (dur_secs : ℚ) (spec : AudioSpec) : ℕ :=
  durToSamples dur_secs spec.sample_rate * spec.channels

/-- Window size of the ambient moving average for a given config. -/
def ambientWindowSize (cfg : InstallationProcessorConfig) : ℕ :=
  windowSizeOf cfg.ambient_volume_window_dur cfg.spec

/-- Window size of the current moving average for a given config. -/
def currentWindowSize (cfg : InstallationProcessorConfig) : ℕ :=
  windowSizeOf cfg.current_volume_window_dur cfg.spec

/-- Sum of absolute values of the samples of one chunk. -/
def chunkAbsSum (c : Chunk) : ℚ :=
  (c.map (fun x => |x|)).sum

/-- Embeds `InstallationProcessor::chunked_moving_average_amp` from
src/installation_processor.rs lines 229-248.  `none` where the Rust code
panics: `recording_buffers[0]` with no buffers, `back().unwrap()` on an empty
buffer, or the `usize` underflow of `window_size - last_chunk_len`. -/
def chunked_moving_average_amp (last_avg : ℚ) (window_size : ℕ)
    (recording_buffers : List (List Chunk)) : Option ℚ := do
  let firstBuf ← recording_buffers.head?
  let lastChunk ← firstBuf.getLast?
  let last_chunk_len := lastChunk.length * recording_buffers.length
  if last_chunk_len ≤ window_size then
    let lastChunks ← optionTraverse List.getLast? recording_buffers
    pure (last_avg * (((window_size - last_chunk_len : ℕ) : ℚ) / (window_size : ℚ))
      + (lastChunks.map chunkAbsSum).sum / (window_size : ℚ))
  else none

/-- Embeds one channel's ingest of src/installation_processor.rs lines
108-118: if the deque holds `rec_buf_chunks` chunks, `truncate_front` keeps
the last `rec_buf_chunks - 1` (dropping the front chunk) before the push.
Returns the new deque and whether truncation happened. -/
def ingestChannel (buf : List Chunk) (c : Chunk) : List Chunk × Bool :=
  if buf.length = rec_buf_chunks then ((buf.drop 1) ++ [c], true)
  else (buf ++ [c], false)

/-- Embeds the ingest loop of src/installation_processor.rs lines 106-119:
one received chunk is pushed per channel; the flag is true when any channel
truncated. -/
def ingest (bufs : List (List Chunk)) (chunks : List Chunk) :
    List (List Chunk) × Bool :=
  let results := List.zipWith ingestChannel bufs chunks
  (results.map Prod.fst, results.any Prod.snd)

/-- Embeds lines 120-122: after ingest, a truncation decrements
`recording_buffer_listen_start` by one (in every listening state). -/
def listenStartAfterIngest (ls : ℤ) (truncated : Bool) : ℤ :=
  if truncated then ls - 1 else ls

/-- Embeds the slice `&b[recording_buffer_listen_start as usize..]` of
src/installation_processor.rs line 170: a negative `isize` cast to `usize`
or an index past the end makes the slice panic (`none`). -/
def snippetOf (ls : ℤ) (b : List Chunk) : Option (List Chunk) :=
  if 0 ≤ ls ∧ ls ≤ (b.length : ℤ) then some (b.drop ls.toNat) else none

/-- Embeds the `total_input_samples` accumulation of lines 163-176: the
counter is reset to zero for every channel, so its final value is the
snippet sample count of the last channel (zero with no channels). -/
def totalInputSamples (snippets : List (List Chunk)) : ℕ :=
  ((snippets.getLast?.getD []).map List.length).sum

/-- Embeds the hard output budget passed to `StretcherProcessor::new` on
line 191: `(total_input_samples as f32 * stretch_factor) as usize`, an `as`
cast that truncates toward zero (saturating at zero). -/
def stretcherBudget (total_input_samples : ℕ) (stretch_factor : ℚ) : ℕ :=
  (Int.floor ((total_input_samples : ℚ) * stretch_factor)).toNat

/-- The data the controller hands over on a trigger: the per-channel snippet
snapshot, the chosen stretch factor, the hard budget given to
`StretcherProcessor::new`, and the `ConnectBus` parameters of lines 194-201. -/
structure TriggerOutput where
  snippets : List (List Chunk)
  stretch_factor : ℚ
  budget : ℕ
  fade_in_millis : ℕ
  shutdown_when_finished : Bool
deriving DecidableEq

/-- Mutable state of one iteration of `InstallationProcessor::run`. -/
structure RunState where
  recording_buffers : List (List Chunk)
  ambient_amplitude : ℚ
  current_amplitude : ℚ
  listening_state : ListeningState
  recording_buffer_listen_start : ℤ
  stretcher_count : ℕ
deriving DecidableEq

/-- Per-iteration input of the loop: the chunk received from each recorder
channel, the randomly chosen stretch factor (randomness is an oracle input),
and the observed state of the control channel. -/
structure StepInput where
  chunks : List Chunk
  stretch_factor : ℚ
  ctrl : TryRecvResult
deriving DecidableEq

/-- Embeds the `match listening_state` block of
src/installation_processor.rs lines 139-204, acting on the post-ingest
buffers `bufs`, the post-ingest listen start `ls1` and the freshly updated
amplitudes.  `none` where the Rust code panics (`recording_buffers[0]` with
no buffers, or an out-of-range snippet slice). -/
def transition (cfg : InstallationProcessorConfig) (stretch_factor : ℚ)
    (bufs : List (List Chunk)) (ls1 : ℤ) (ambient current : ℚ) :
    ListeningState → ℕ → Option (RunState × Option TriggerOutput)
  | ListeningState.Idle, count => do
      let b0 ← bufs.head?
      if rec_buf_chunks / 2 < b0.length ∧
          ambient * cfg.amp_activation_factor < current then
        pure ({ recording_buffers := bufs, ambient_amplitude := ambient,
                current_amplitude := current,
                listening_state := ListeningState.Active,
                recording_buffer_listen_start := (b0.length : ℤ),
                stretcher_count := count }, none)
      else
        pure ({ recording_buffers := bufs, ambient_amplitude := ambient,
                current_amplitude := current,
                listening_state := ListeningState.Idle,
                recording_buffer_listen_start := ls1,
                stretcher_count := count }, none)
  | ListeningState.Active, count =>
      if ls1 = 0 ∨ current < ambient / cfg.amp_activation_factor then do
        let snippets ← optionTraverse (snippetOf ls1) bufs
        let total := totalInputSamples snippets
        pure ({ recording_buffers := bufs, ambient_amplitude := ambient,
                current_amplitude := current,
                listening_state := ListeningState.Idle,
                recording_buffer_listen_start := ls1,
                stretcher_count := count + 1 },
              some { snippets := snippets,
                     stretch_factor := stretch_factor,
                     budget := stretcherBudget total stretch_factor,
                     fade_in_millis := 500,
                     shutdown_when_finished := false })
      else
        pure ({ recording_buffers := bufs, ambient_amplitude := ambient,
                current_amplitude := current,
                listening_state := ListeningState.Active,
                recording_buffer_listen_start := ls1,
                stretcher_count := count }, none)

/-- Embeds one full iteration of the loop of `InstallationProcessor::run`,
src/installation_processor.rs lines 104-212: ingest, the two moving-average
updates, the state transition (with a possible trigger output), and the
control drain.  `none` where the Rust code panics. -/
def step (cfg : InstallationProcessorConfig) (inp : StepInput) (s : RunState) :
    Option (RunState × Option TriggerOutput × ProcessorState) := do
  let ingested := ingest s.recording_buffers inp.chunks
  let bufs := ingested.1
  let ls1 := listenStartAfterIngest s.recording_buffer_listen_start ingested.2
  let ambient ← chunked_moving_average_amp s.ambient_amplitude
    (ambientWindowSize cfg) bufs
  let current ← chunked_moving_average_amp s.current_amplitude
    (currentWindowSize cfg) bufs
  let t ← transition cfg inp.stretch_factor bufs ls1 ambient current
    s.listening_state s.stretcher_count
  pure (t.1, t.2, handle_control_messages inp.ctrl)

/-- State at the top of the loop on first entry (lines 96-102): one empty
deque per recorder-bus channel, zero amplitudes, `Idle`, listen start 0. -/
def initialState (channels : ℕ) : RunState where
  recording_buffers := List.replicate channels []
  ambient_amplitude := 0
  current_amplitude := 0
  listening_state := ListeningState.Idle
  recording_buffer_listen_start := 0
  stretcher_count := 0

/-- States of the loop reachable from the initial state under any sequence of
received chunks (one per channel, as the blocking receives deliver) and any
oracle inputs. -/
inductive Reachable (cfg : InstallationProcessorConfig) : RunState → Prop where
  | init : Reachable cfg (initialState cfg.spec.channels)
  | next (s : RunState) (inp : StepInput) (s' : RunState)
      (out : Option TriggerOutput) (p : ProcessorState)
      (hs : Reachable cfg s)
      (hlen : inp.chunks.length = s.recording_buffers.length)
      (hstep : step cfg inp s = some (s', out, p)) : Reachable cfg s'

/-- Duration in seconds of a trigger's snippet (per-channel sample count over
the sample rate). -/
def snippetDur (cfg : InstallationProcessorConfig) (trig : TriggerOutput) : ℚ :=
  (totalInputSamples trig.snippets : ℚ) / (cfg.spec.sample_rate : ℚ)

/-- Modelled from the spec: the output-length behaviour of the phase-vocoder
stretcher (src/ lacks stretcher.rs; only the controller that builds
stretchers is present).  Spec: "if a hard output budget is set, emit exactly
that many samples then signal end-of-stream", zero-filling if the input ends
early — so the emitted output length is exactly the budget, for any input. -/
def stretcherOutputSamples (input_total_samples : ℕ) (budget : ℕ) : ℕ :=
  budget

/-- Written from the spec's words for the moving-average rule: `L`, "the
length of the most recently pushed chunk times the number of channels". -/
def lastChunkTotalLen (bufs : List (List Chunk)) : ℕ :=
  ((bufs.head?.getD []).getLast?.getD []).length * bufs.length

/-- Written from the spec's words for the moving-average rule: `S`, "the sum
over all channels of the sum of absolute values of the samples in that
channel's most recently pushed chunk". -/
def lastChunksAbsSum (bufs : List (List Chunk)) : ℚ :=
  (bufs.map (fun b => chunkAbsSum (b.getLast?.getD []))).sum

/-- Written from the spec's words: the claimed update rule
`new_avg = old_avg * (W - L) / W + S / W`, with true (rational) subtraction. -/
def specMovingAvgUpdate (old : ℚ) (W : ℕ) (bufs : List (List Chunk)) : ℚ :=
  old * (((W : ℚ) - (lastChunkTotalLen bufs : ℚ)) / (W : ℚ))
    + lastChunksAbsSum bufs / (W : ℚ)

/-- Invariant maintained by the loop: buffer lengths are capped at
`rec_buf_chunks` and equal across channels, and while `Active` the listen
start lies in `[1, ring length]`. -/
def BufInv (s : RunState) : Prop :=
  (∀ b ∈ s.recording_buffers, b.length ≤ rec_buf_chunks) ∧
  (∀ b1 ∈ s.recording_buffers, ∀ b2 ∈ s.recording_buffers,
    b1.length = b2.length) ∧
  (s.listening_state = ListeningState.Active →
    1 ≤ s.recording_buffer_listen_start ∧
    ∀ b ∈ s.recording_buffers,
      s.recording_buffer_listen_start ≤ (b.length : ℤ))

/-- A small one-channel config (sample rate 1, ambient window 4 samples,
current window 2 samples, activation factor 2) used for concrete runs. -/
def cfgSmall : InstallationProcessorConfig :=
  { defaultConfig with
    spec := { channels := 1, sample_rate := 1 },
    ambient_volume_window_dur := 4,
    current_volume_window_dur := 2,
    amp_activation_factor := 2 }

/-- A one-channel config with activation factor 1, ambient window 8 and
current window 2 (sample rate 1), used for concrete runs. -/
def cfgHalf : InstallationProcessorConfig :=
  { defaultConfig with
    spec := { channels := 1, sample_rate := 1 },
    ambient_volume_window_dur := 8,
    current_volume_window_dur := 2,
    amp_activation_factor := 1 }

/-- Concrete `Active` state holding `max_stretchers` (= 10) stretcher nodes,
one buffered chunk, listen start 1, ambient level 4 and current level 0. -/
def stateTenStretchers : RunState :=
  { recording_buffers := [[[0]]], ambient_amplitude := 4,
    current_amplitude := 0, listening_state := ListeningState.Active,
    recording_buffer_listen_start := 1, stretcher_count := 10 }

/-- Concrete `Active` state whose pending snippet spans three one-sample
chunks at sample rate 1 (three seconds of audio). -/
def stateLongSnippet : RunState :=
  { recording_buffers := [[[0], [0], [0]]], ambient_amplitude := 4,
    current_amplitude := 0, listening_state := ListeningState.Active,
    recording_buffer_listen_start := 1, stretcher_count := 0 }

/-- Concrete `Idle` state with 511 buffered chunks, so that the ring is
exactly half full (512 of 1024 chunks) after the next push. -/
def stateIdle511 : RunState :=
  { recording_buffers := [List.replicate 511 [1]], ambient_amplitude := 0,
    current_amplitude := 0, listening_state := ListeningState.Idle,
    recording_buffer_listen_start := 0, stretcher_count := 0 }

/-- Concrete `Idle` state with 512 buffered chunks, so that the ring is
strictly more than half full after the next push. -/
def stateIdle512 : RunState :=
  { recording_buffers := [List.replicate 512 [1]], ambient_amplitude := 0,
    current_amplitude := 0, listening_state := ListeningState.Idle,
    recording_buffer_listen_start := 0, stretcher_count := 0 }

/-- Concrete input delivering one silent one-sample chunk with stretch
factor 6 and an empty control channel. -/
def inputZero : StepInput :=
  { chunks := [[0]], stretch_factor := 6, ctrl := TryRecvResult.empty }

/-- Concrete input delivering one silent one-sample chunk with stretch
factor 13/2 (exactly representable in `f32`). -/
def inputHalfFactor : StepInput :=
  { chunks := [[0]], stretch_factor := 13 / 2, ctrl := TryRecvResult.empty }

/-- Concrete input delivering one one-sample chunk of amplitude 1. -/
def inputOne : StepInput :=
  { chunks := [[1]], stretch_factor := 6, ctrl := TryRecvResult.empty }

/-- Concrete input delivering one empty chunk. -/
def inputEmptyChunk : StepInput :=
  { chunks := [([] : Chunk)], stretch_factor := 6, ctrl := TryRecvResult.empty }

/-- State of the loop for `cfgHalf` after `n` ingests of empty chunks while
everything is silent: `n` buffered empty chunks, zero amplitudes, `Idle`. -/
def pump (n : ℕ) : RunState :=
  { recording_buffers := [List.replicate n ([] : Chunk)],
    ambient_amplitude := 0, current_amplitude := 0,
    listening_state := ListeningState.Idle,
    recording_buffer_listen_start := 0, stretcher_count := 0 }

/-- Audio value with two channels' worth of spec but an empty channel list. -/
def audioNoChannels : Audio :=
  { data := [], spec := { channels := 2, sample_rate := 44100 } }

/-- The 5-sample, 2-channel, 44100 Hz audio of the spec's clip scenario. -/
def audioFive : Audio :=
  { data := [List.replicate 5 0, List.replicate 5 0],
    spec := { channels := 2, sample_rate := 44100 } }


/-- State produced by one `cfgSmall` step from `stateTenStretchers` on
`inputZero` (an eleventh stretcher has been connected). -/
def stateAfterTrigger : RunState :=
  { recording_buffers := [[[0], [0]]], ambient_amplitude := 3,
    current_amplitude := 0, listening_state := ListeningState.Idle,
    recording_buffer_listen_start := 1, stretcher_count := 11 }

/-- Trigger output emitted by the `cfgSmall` step from `stateTenStretchers`
on `inputZero`. -/
def trigSmall : TriggerOutput :=
  { snippets := [[[0]]], stretch_factor := 6, budget := 6,
    fade_in_millis := 500, shutdown_when_finished := false }

/-- State produced by one `cfgHalf` step from `stateIdle512` on `inputOne`:
the ring holds 513 chunks and the machine has become `Active`. -/
def stateIdle512After : RunState :=
  { recording_buffers := [List.replicate 513 [1]], ambient_amplitude := 1 / 8,
    current_amplitude := 1 / 2, listening_state := ListeningState.Active,
    recording_buffer_listen_start := 513, stretcher_count := 0 }

/-- State produced by one `cfgHalf` step from `pump 1024` on
`inputEmptyChunk`: the full ring rotated and the listen start (never used
while `Idle`) was decremented to -1. -/
def pumpAfterOverflow : RunState :=
  { recording_buffers := [List.replicate 1024 ([] : Chunk)],
    ambient_amplitude := 0, current_amplitude := 0,
    listening_state := ListeningState.Idle,
    recording_buffer_listen_start := -1, stretcher_count := 0 }

/-! ## Helper lemmas -/

theorem optionTraverse_nil {A B : Type} (f : A → Option B) :
    optionTraverse f [] = some [] := rfl

theorem optionTraverse_cons {A B : Type} (f : A → Option B) (x : A)
    (xs : List A) :
    optionTraverse f (x :: xs) =
      (f x).bind (fun y => (optionTraverse f xs).bind (fun ys => some (y :: ys))) := rfl

theorem optionTraverse_isSome_iff {A B : Type} (f : A → Option B) :
    ∀ l : List A, (optionTraverse f l).isSome = true ↔ ∀ x ∈ l, (f x).isSome = true := by
  intro l
  induction l with
  | nil => simp [optionTraverse_nil]
  | cons x xs ih =>
    rw [optionTraverse_cons]
    cases hx : f x with
    | none => simp [hx]
    | some y =>
      cases hxs : optionTraverse f xs with
      | none => simp [hxs, hx] at ih ⊢; exact ih
      | some ys => simp [hxs, hx] at ih ⊢; exact ih

theorem optionTraverse_eq_some_self {A : Type} (f : A → Option A) :
    ∀ l : List A, (∀ x ∈ l, f x = some x) → optionTraverse f l = some l := by
  intro l
  induction l with
  | nil => intro _; rfl
  | cons x xs ih =>
    intro h
    have hx : f x = some x := h x (by simp)
    have hxs : optionTraverse f xs = some xs := ih (fun y hy => h y (by simp [hy]))
    rw [optionTraverse_cons, hx, hxs]
    rfl

theorem optionTraverse_getLast_eq_some :
    ∀ l : List (List Chunk), (∀ b ∈ l, b ≠ []) →
      optionTraverse List.getLast? l =
        some (l.map (fun b => b.getLast?.getD [])) := by
  intro l
  induction l with
  | nil => intro _; rfl
  | cons b bs ih =>
    intro h
    have hb : b ≠ [] := h b (by simp)
    have hbs := ih (fun y hy => h y (by simp [hy]))
    obtain ⟨c, hc⟩ := Option.isSome_iff_exists.mp ((List.getLast?_isSome).mpr hb)
    rw [optionTraverse_cons, hc, hbs]
    simp [hc]

theorem optionTraverse_getLast_nonempty (l : List (List Chunk)) (r : List Chunk)
    (h : optionTraverse List.getLast? l = some r) : ∀ b ∈ l, b ≠ [] := by
  intro b hb
  have hsome := (optionTraverse_isSome_iff List.getLast? l).mp (by simp [h]) b hb
  exact List.getLast?_isSome.mp hsome

theorem chunked_some_spec (a : ℚ) (W : ℕ) (bufs : List (List Chunk)) (v : ℚ)
    (h : chunked_moving_average_amp a W bufs = some v) :
    v = specMovingAvgUpdate a W bufs := by
  match bufs with
  | [] => simp [chunked_moving_average_amp] at h
  | b0 :: rest =>
    cases hlast : b0.getLast? with
    | none => simp [chunked_moving_average_amp, hlast] at h
    | some lc =>
      simp only [chunked_moving_average_amp, List.head?_cons,
        Option.bind_eq_bind, Option.some_bind, hlast] at h
      split at h
      case isFalse => simp at h
      case isTrue hle =>
        cases htrav : optionTraverse List.getLast? (b0 :: rest) with
        | none => rw [htrav] at h; simp at h
        | some lcs =>
          have hne := optionTraverse_getLast_nonempty _ _ htrav
          have heq := optionTraverse_getLast_eq_some _ hne
          rw [htrav] at heq
          injection heq with heq
          rw [htrav] at h
          simp only [Option.some_bind, Option.pure_def, Option.some_inj] at h
          subst h
          subst heq
          unfold specMovingAvgUpdate lastChunkTotalLen lastChunksAbsSum
          rw [Nat.cast_sub hle]
          simp [hlast, List.map_map, Function.comp_def]

theorem chunked_some_pre (a : ℚ) (W : ℕ) (b0 : List Chunk)
    (rest : List (List Chunk)) (v : ℚ)
    (h : chunked_moving_average_amp a W (b0 :: rest) = some v) :
    (∀ b ∈ b0 :: rest, b ≠ []) ∧
      (b0.getLast?.getD []).length * (b0 :: rest).length ≤ W := by
  cases hlast : b0.getLast? with
  | none => simp [chunked_moving_average_amp, hlast] at h
  | some lc =>
    simp only [chunked_moving_average_amp, List.head?_cons,
      Option.bind_eq_bind, Option.some_bind, hlast] at h
    split at h
    case isFalse => simp at h
    case isTrue hle =>
      cases htrav : optionTraverse List.getLast? (b0 :: rest) with
      | none => rw [htrav] at h; simp at h
      | some lcs =>
        exact ⟨optionTraverse_getLast_nonempty _ _ htrav, by simp [hlast]; exact hle⟩

theorem step_some_inv (cfg : InstallationProcessorConfig) (inp : StepInput)
    (s s' : RunState) (out : Option TriggerOutput) (p : ProcessorState)
    (h : step cfg inp s = some (s', out, p)) :
    ∃ av cv,
      chunked_moving_average_amp s.ambient_amplitude (ambientWindowSize cfg)
        (ingest s.recording_buffers inp.chunks).1 = some av ∧
      chunked_moving_average_amp s.current_amplitude (currentWindowSize cfg)
        (ingest s.recording_buffers inp.chunks).1 = some cv ∧
      transition cfg inp.stretch_factor (ingest s.recording_buffers inp.chunks).1
        (listenStartAfterIngest s.recording_buffer_listen_start
          (ingest s.recording_buffers inp.chunks).2)
        av cv s.listening_state s.stretcher_count = some (s', out) ∧
      p = handle_control_messages inp.ctrl := by
  cases hav : chunked_moving_average_amp s.ambient_amplitude
      (ambientWindowSize cfg) (ingest s.recording_buffers inp.chunks).1 with
  | none => simp [step, hav] at h
  | some av =>
    cases hcv : chunked_moving_average_amp s.current_amplitude
        (currentWindowSize cfg) (ingest s.recording_buffers inp.chunks).1 with
    | none => simp [step, hav, hcv] at h
    | some cv =>
      cases htr : transition cfg inp.stretch_factor
          (ingest s.recording_buffers inp.chunks).1
          (listenStartAfterIngest s.recording_buffer_listen_start
            (ingest s.recording_buffers inp.chunks).2)
          av cv s.listening_state s.stretcher_count with
      | none => simp [step, hav, hcv, htr] at h
      | some t =>
        refine ⟨av, cv, rfl, rfl, ?_⟩
        simp only [step, hav, hcv, htr, Option.bind_eq_bind, Option.some_bind,
          Option.pure_def, Option.some_inj] at h
        have ht1 : t.1 = s' := congrArg (fun x => x.1) h
        have ht2 : t.2 = out := congrArg (fun x => x.2.1) h
        have hp : handle_control_messages inp.ctrl = p := congrArg (fun x => x.2.2) h
        rw [← ht1, ← ht2, ← hp]
        exact ⟨by rw [htr], rfl⟩

theorem transition_fields (cfg : InstallationProcessorConfig) (f : ℚ)
    (bufs : List (List Chunk)) (ls1 : ℤ) (av cv : ℚ) (st : ListeningState)
    (count : ℕ) (t : RunState × Option TriggerOutput)
    (h : transition cfg f bufs ls1 av cv st count = some t) :
    t.1.recording_buffers = bufs ∧ t.1.ambient_amplitude = av ∧
      t.1.current_amplitude = cv ∧ t.1.stretcher_count = count +
        (if t.2.isSome then 1 else 0) := by
  cases st with
  | Idle =>
    cases hb : bufs.head? with
    | none => simp [transition, hb] at h
    | some b0 =>
      simp only [transition, hb, Option.bind_eq_bind, Option.some_bind] at h
      split at h <;> (injection h with h; subst h; simp)
  | Active =>
    simp only [transition] at h
    split at h
    · cases htrav : optionTraverse (snippetOf ls1) bufs with
      | none => rw [htrav] at h; simp at h
      | some snips =>
        rw [htrav] at h
        simp only [Option.bind_eq_bind, Option.some_bind, Option.pure_def,
          Option.some_inj] at h
        subst h
        simp
    · injection h with h
      subst h
      simp

theorem transition_trigger_inv (cfg : InstallationProcessorConfig) (f : ℚ)
    (bufs : List (List Chunk)) (ls1 : ℤ) (av cv : ℚ) (st : ListeningState)
    (count : ℕ) (s' : RunState) (trig : TriggerOutput)
    (h : transition cfg f bufs ls1 av cv st count = some (s', some trig)) :
    st = ListeningState.Active ∧
      (ls1 = 0 ∨ cv < av / cfg.amp_activation_factor) ∧
      optionTraverse (snippetOf ls1) bufs = some trig.snippets ∧
      trig.stretch_factor = f ∧
      trig.budget = stretcherBudget (totalInputSamples trig.snippets) f ∧
      trig.fade_in_millis = 500 ∧
      trig.shutdown_when_finished = false ∧
      s' = { recording_buffers := bufs, ambient_amplitude := av,
             current_amplitude := cv, listening_state := ListeningState.Idle,
             recording_buffer_listen_start := ls1,
             stretcher_count := count + 1 } := by
  cases st with
  | Idle =>
    cases hb : bufs.head? with
    | none => simp [transition, hb] at h
    | some b0 =>
      simp only [transition, hb, Option.bind_eq_bind, Option.some_bind] at h
      split at h <;> (injection h with h; exact absurd (congrArg Prod.snd h) (by simp))
  | Active =>
    simp only [transition] at h
    split at h
    case isFalse => injection h with h; exact absurd (congrArg Prod.snd h) (by simp)
    case isTrue hcond =>
      cases htrav : optionTraverse (snippetOf ls1) bufs with
      | none => rw [htrav] at h; simp at h
      | some snips =>
        rw [htrav] at h
        simp only [Option.bind_eq_bind, Option.some_bind, Option.pure_def,
          Option.some_inj] at h
        have hs : s' = _ := (congrArg Prod.fst h).symm
        have ht : some trig = _ := (congrArg Prod.snd h).symm
        injection ht with ht
        refine ⟨rfl, hcond, ?_, ?_, ?_, ?_, ?_, hs⟩ <;> rw [ht]

/-! ## Claim theorems -/

/-- C1: For every iteration of the installation controller, each
moving-average amplitude (ambient and current) is updated from the previous
value by exactly the rule `new_avg = old_avg * (W - L) / W + S / W`, where
`L` is the length of the most recently pushed chunk times the number of
channels, `S` is the sum over all channels of the sum of absolute values of
the samples in that channel's most recently pushed chunk, and `W` is that
average's window size in samples-across-all-channels (the formula is spelled
out by `specMovingAvgUpdate`, applied to the post-ingest buffers). -/
theorem c1_moving_average_update (cfg : InstallationProcessorConfig)
    (inp : StepInput) (s s' : RunState) (out : Option TriggerOutput)
    (p : ProcessorState) (h : step cfg inp s = some (s', out, p)) :
    s'.ambient_amplitude = specMovingAvgUpdate s.ambient_amplitude
      (ambientWindowSize cfg) (ingest s.recording_buffers inp.chunks).1 ∧
    s'.current_amplitude = specMovingAvgUpdate s.current_amplitude
      (currentWindowSize cfg) (ingest s.recording_buffers inp.chunks).1 := by
  obtain ⟨av, cv, hav, hcv, htr, _⟩ := step_some_inv cfg inp s s' out p h
  obtain ⟨_, ha, hc, _⟩ := transition_fields _ _ _ _ _ _ _ _ _ htr
  exact ⟨ha.trans (chunked_some_spec _ _ _ _ hav),
    hc.trans (chunked_some_spec _ _ _ _ hcv)⟩

unseal Rat.mul Rat.add Rat.sub Rat.inv in
/-- Witness for C1: one concrete silent step from the empty loop state. -/
theorem c1_moving_average_update_witness :
    (pump 1).ambient_amplitude = specMovingAvgUpdate (pump 0).ambient_amplitude
      (ambientWindowSize cfgHalf)
      (ingest (pump 0).recording_buffers inputEmptyChunk.chunks).1 ∧
    (pump 1).current_amplitude = specMovingAvgUpdate (pump 0).current_amplitude
      (currentWindowSize cfgHalf)
      (ingest (pump 0).recording_buffers inputEmptyChunk.chunks).1 :=
  c1_moving_average_update cfgHalf inputEmptyChunk (pump 0) (pump 1) none
    ProcessorState.Running (by decide)

unseal Rat.mul Rat.add Rat.sub Rat.inv in
/-- C2 (code bug): in a state already holding `max_stretchers` (= 10)
connected stretchers, a trigger connects an eleventh stretcher;
`config.max_stretchers` is never consulted by `InstallationProcessor::run`,
so the trigger is not skipped. -/
theorem c2_max_stretchers_exceeded :
    stateTenStretchers.stretcher_count = cfgSmall.max_stretchers ∧
    step cfgSmall inputZero stateTenStretchers =
      some (stateAfterTrigger, some trigSmall, ProcessorState.Running) ∧
    stateAfterTrigger.stretcher_count = cfgSmall.max_stretchers + 1 := by
  refine ⟨by decide, by decide, by decide⟩

unseal Rat.mul Rat.add Rat.sub Rat.inv in
/-- C3 (code bug): a trigger whose snippet lasts 3 seconds is handed to the
stretchers although `max_snippet_dur` is 1 second; `config.max_snippet_dur`
is never consulted by `InstallationProcessor::run`, so no cap is applied. -/
theorem c3_snippet_dur_uncapped :
    cfgSmall.max_snippet_dur = 1 ∧
    (step cfgSmall inputZero stateLongSnippet).map
      (fun r => r.2.1.map (snippetDur cfgSmall)) = some (some 3) ∧
    cfgSmall.max_snippet_dur < 3 := by
  refine ⟨by decide, by decide, by decide⟩

unseal Rat.mul Rat.add Rat.sub Rat.inv in
/-- Counterexample for C6: at a concrete trigger with a one-sample snippet
and stretch factor 13/2, the hard budget passed to the stretcher processor
is 6, while `round(N * stretch_factor) = round(13/2) = 7`: the conversion is
a truncating `as usize` cast, not a rounding. -/
theorem c6_budget_round_counterexample :
    (step cfgSmall inputHalfFactor stateTenStretchers).map
      (fun r => r.2.1.map (fun t => (totalInputSamples t.snippets, t.budget)))
      = some (some (1, 6)) ∧
    round ((1 : ℚ) * (13 / 2)) = 7 ∧ (6 : ℕ) ≠ 7 := by
  refine ⟨by decide, by decide, by decide⟩

/-- C6 as amended: on every trigger the hard budget handed to the stretcher
processor is `⌊N * stretch_factor⌋` (truncated, not rounded), where `N` is
the per-channel snippet sample count, and the spec-modelled stretcher with a
hard budget set emits exactly that many output samples. -/
theorem c6_budget_amended (cfg : InstallationProcessorConfig)
    (inp : StepInput) (s s' : RunState) (trig : TriggerOutput)
    (p : ProcessorState) (h : step cfg inp s = some (s', some trig, p)) :
    stretcherOutputSamples (totalInputSamples trig.snippets) trig.budget =
      (Int.floor ((totalInputSamples trig.snippets : ℚ) *
        trig.stretch_factor)).toNat := by
  obtain ⟨av, cv, _, _, htr, _⟩ := step_some_inv cfg inp s s' (some trig) p h
  obtain ⟨_, _, _, hf, hbud, _, _, _⟩ :=
    transition_trigger_inv _ _ _ _ _ _ _ _ _ _ htr
  rw [stretcherOutputSamples, hbud, hf, stretcherBudget]

unseal Rat.mul Rat.add Rat.sub Rat.inv in
/-- Witness for C6 as amended: the concrete trigger of the small config. -/
theorem c6_budget_amended_witness :
    stretcherOutputSamples (totalInputSamples trigSmall.snippets)
        trigSmall.budget =
      (Int.floor ((totalInputSamples trigSmall.snippets : ℚ) *
        trigSmall.stretch_factor)).toNat :=
  c6_budget_amended cfgSmall inputZero stateTenStretchers stateAfterTrigger
    trigSmall ProcessorState.Running (by decide)

/-- C7: `handle_control_messages` returns `Finished` exactly on a `Shutdown`
message or a disconnected control channel, returns `Running` exactly on an
empty control channel, and treats disconnection identically to `Shutdown`. -/
theorem c7_handle_control_messages :
    ∀ r : TryRecvResult,
      (handle_control_messages r = ProcessorState.Finished ↔
        (r = TryRecvResult.ok InstallationProcessorControlMessage.Shutdown ∨
          r = TryRecvResult.disconnected)) ∧
      (handle_control_messages r = ProcessorState.Running ↔
        r = TryRecvResult.empty) ∧
      handle_control_messages TryRecvResult.disconnected =
        handle_control_messages
          (TryRecvResult.ok InstallationProcessorControlMessage.Shutdown) := by
  intro r
  refine ⟨?_, ?_, rfl⟩ <;>
    cases r with
    | ok m => cases m <;> simp [handle_control_messages]
    | empty => simp [handle_control_messages]
    | disconnected => simp [handle_control_messages]

/-- C10: `chunked_moving_average_amp` is defined only when every recording
buffer is non-empty and the most recent chunk's length times the number of
buffers is at most the window size; when violated, the `back().unwrap()`
respectively the `usize` subtraction `window_size - last_chunk_len` fails. -/
theorem c10_moving_average_precondition (a : ℚ) (W : ℕ) (b0 : List Chunk)
    (rest : List (List Chunk))
    (h : (chunked_moving_average_amp a W (b0 :: rest)).isSome = true) :
    (∀ b ∈ b0 :: rest, b ≠ []) ∧
      (b0.getLast?.getD []).length * (b0 :: rest).length ≤ W := by
  obtain ⟨v, hv⟩ := Option.isSome_iff_exists.mp h
  exact chunked_some_pre a W b0 rest v hv

/-- Witness for C10: a defined concrete call. -/
theorem c10_moving_average_precondition_witness :
    (∀ b ∈ ([[[(1 : ℚ)]]] : List (List Chunk)), b ≠ []) ∧
      ((([[(1 : ℚ)]] : List Chunk).getLast?.getD []).length *
        ([[[(1 : ℚ)]]] : List (List Chunk)).length ≤ 4) :=
  c10_moving_average_precondition 0 4 [[(1 : ℚ)]] [] (by decide)

unseal Rat.mul Rat.add Rat.sub Rat.inv in
set_option maxRecDepth 8000 in
/-- Counterexample for C5: with the ring exactly half full (512 of 1024
chunks) and the amplitude condition satisfied, the controller stays `Idle`;
the code requires strictly more than `rec_buf_chunks / 2` chunks. -/
theorem c5_half_full_counterexample :
    (step cfgHalf inputOne stateIdle511).map (fun r =>
      (r.1.listening_state, (r.1.recording_buffers.head?.getD []).length,
        r.1.ambient_amplitude, r.1.current_amplitude))
      = some (ListeningState.Idle, 512, 1 / 8, 1 / 2) ∧
    rec_buf_chunks / 2 ≤ 512 ∧
    (1 / 8 : ℚ) * cfgHalf.amp_activation_factor < 1 / 2 := by
  refine ⟨by decide, by decide, by decide⟩

/-- C5 as amended: in state `Idle`, the controller transitions to `Active`
if and only if the recording ring is strictly more than half full
(`rec_buf_chunks / 2 < ring length`) and the updated current amplitude
exceeds the updated ambient amplitude times `amp_activation_factor`; on that
transition it records the listen start equal to the ring length at that
moment. -/
theorem c5_idle_transition_amended (cfg : InstallationProcessorConfig)
    (inp : StepInput) (s s' : RunState) (out : Option TriggerOutput)
    (p : ProcessorState) (hidle : s.listening_state = ListeningState.Idle)
    (h : step cfg inp s = some (s', out, p)) :
    (s'.listening_state = ListeningState.Active ↔
      (rec_buf_chunks / 2 < (s'.recording_buffers.head?.getD []).length ∧
        s'.ambient_amplitude * cfg.amp_activation_factor <
          s'.current_amplitude)) ∧
    (s'.listening_state = ListeningState.Active →
      s'.recording_buffer_listen_start =
        ((s'.recording_buffers.head?.getD []).length : ℤ)) := by
  obtain ⟨av, cv, hav, hcv, htr, _⟩ := step_some_inv cfg inp s s' out p h
  rw [hidle] at htr
  cases hb : (ingest s.recording_buffers inp.chunks).1.head? with
  | none => rw [transition, hb] at htr; simp at htr
  | some b0 =>
    rw [transition, hb] at htr
    simp only [Option.bind_eq_bind, Option.some_bind] at htr
    split at htr
    case isTrue hcond =>
      injection htr with htr
      have hs : s' = _ := (congrArg Prod.fst htr).symm
      subst hs
      constructor
      · simp only [hb]
        simp
        exact hcond
      · intro _
        simp only [hb]
        simp
    case isFalse hcond =>
      injection htr with htr
      have hs : s' = _ := (congrArg Prod.fst htr).symm
      subst hs
      constructor
      · constructor
        · intro hc
          exact absurd hc (by simp)
        · intro h2
          exact absurd (by simpa [hb] using h2) hcond
      · intro hc
        exact absurd hc (by simp)

unseal Rat.mul Rat.add Rat.sub Rat.inv in
set_option maxRecDepth 8000 in
/-- Witness for C5 as amended: pushing a 513th chunk of amplitude 1 while
`Idle` makes the controller go `Active` with listen start 513. -/
theorem c5_idle_transition_amended_witness :
    (stateIdle512After.listening_state = ListeningState.Active ↔
      (rec_buf_chunks / 2 <
          (stateIdle512After.recording_buffers.head?.getD []).length ∧
        stateIdle512After.ambient_amplitude * cfgHalf.amp_activation_factor <
          stateIdle512After.current_amplitude)) ∧
    (stateIdle512After.listening_state = ListeningState.Active →
      stateIdle512After.recording_buffer_listen_start =
        ((stateIdle512After.recording_buffers.head?.getD []).length : ℤ)) :=
  c5_idle_transition_amended cfgHalf inputOne stateIdle512 stateIdle512After
    none ProcessorState.Running rfl (by decide)

theorem sliceChannel_isSome_iff (sp ep : ℕ) (ch : List ℚ) :
    (sliceChannel sp ep ch).isSome = true ↔ sp ≤ ep ∧ ep ≤ ch.length := by
  by_cases hc : sp ≤ ep ∧ ep ≤ ch.length <;> simp [sliceChannel, hc]

theorem sliceChannel_full (ch : List ℚ) (ep : ℕ) (hl : ch.length = ep) :
    sliceChannel 0 ep ch = some ch := by
  rw [sliceChannel, if_pos ⟨Nat.zero_le ep, le_of_eq hl.symm⟩]
  simp [← hl]

/-- Counterexample for C8: an `Audio` value with no channels has channels of
(vacuously) equal length, yet `clip_in_place(None, None)` panics on
`data.get(0).unwrap()` instead of leaving the data unchanged. -/
theorem c8_clip_no_channels_counterexample :
    channelsEqualLength audioNoChannels ∧
      clip_in_place audioNoChannels none none = none := by
  refine ⟨by decide, by decide⟩

/-- C8 as amended: for every `Audio` value with at least one channel whose
channels all have equal length, `clip_in_place(None, None)` leaves every
channel's data unchanged; in particular for 5-sample, 2-channel, 44100 Hz
audio both channels keep length 5. -/
theorem c8_clip_none_amended (a : Audio) (h1 : a.data ≠ [])
    (h2 : channelsEqualLength a) : clip_in_place a none none = some a := by
  cases hd : a.data with
  | nil => exact absurd hd h1
  | cons c0 rest =>
    have hend : resolve_end_sample_pos a 0 none = some c0.length := by
      simp [resolve_end_sample_pos, hd]
    have htrav : optionTraverse (sliceChannel 0 c0.length) a.data = some a.data := by
      apply optionTraverse_eq_some_self
      intro ch hch
      have hlen : ch.length = c0.length :=
        h2 ch hch c0 (by rw [hd]; exact List.mem_cons_self c0 rest)
      exact sliceChannel_full ch c0.length hlen
    simp only [clip_in_place, resolve_start_sample_pos, hend, htrav,
      Option.bind_eq_bind, Option.some_bind, Option.pure_def]

/-- Witness for C8 as amended: the 5-sample, 2-channel scenario. -/
theorem c8_clip_none_amended_witness :
    clip_in_place audioFive none none = some audioFive :=
  c8_clip_none_amended audioFive (by decide) (by decide)

unseal Rat.mul Rat.add Rat.sub Rat.inv in
/-- Counterexample for C9: with no channels but a `Some` duration,
`clip_in_place` is total (the `unwrap` on channel 0 is never reached), so
"at least one channel" is not a necessary part of the totality
precondition. -/
theorem c9_totality_counterexample :
    clip_in_place audioNoChannels none (some 0) = some audioNoChannels ∧
      audioNoChannels.data = [] := by
  refine ⟨by decide, rfl⟩

/-- C9 as amended: `clip_in_place` is total if and only if the end sample
position resolves (which, when the duration is `None`, requires at least one
channel — that is the only place the channel-0 `unwrap` is evaluated), the
resolved start position is at most the resolved end position, and the
resolved end position is at most every channel's length; outside this
precondition it is undefined. -/
theorem c9_totality_amended (a : Audio) (start_offset duration : Option ℚ) :
    ((clip_in_place a start_offset duration).isSome = true ↔
      ∃ e, resolve_end_sample_pos a
          (resolve_start_sample_pos a start_offset) duration = some e ∧
        resolve_start_sample_pos a start_offset ≤ e ∧
        ∀ ch ∈ a.data, e ≤ ch.length) ∧
    ((resolve_end_sample_pos a (resolve_start_sample_pos a start_offset)
        duration).isSome = true ↔ (duration = none → a.data ≠ [])) := by
  constructor
  · cases he : resolve_end_sample_pos a
        (resolve_start_sample_pos a start_offset) duration with
    | none => simp [clip_in_place, he]
    | some e =>
      have hsp : resolve_start_sample_pos a start_offset ≤ e ∨ a.data ≠ [] := by
        cases hdur : duration with
        | some d =>
          rw [hdur, resolve_end_sample_pos] at he
          injection he with he
          exact Or.inl (he ▸ Nat.le_add_right _ _)
        | none =>
          rw [hdur, resolve_end_sample_pos] at he
          cases hd : a.data with
          | nil => rw [hd] at he; simp at he
          | cons c0 rest => exact Or.inr (hd ▸ List.cons_ne_nil c0 rest)
      simp only [clip_in_place, he, Option.bind_eq_bind, Option.some_bind]
      constructor
      · intro hs
        cases htrav : optionTraverse
            (sliceChannel (resolve_start_sample_pos a start_offset) e)
            a.data with
        | none => rw [htrav] at hs; simp at hs
        | some d =>
          have hall := (optionTraverse_isSome_iff
            (sliceChannel (resolve_start_sample_pos a start_offset) e)
            a.data).mp (by rw [htrav]; rfl)
          refine ⟨e, rfl, ?_, ?_⟩
          · rcases hsp with hle | hne
            · exact hle
            · obtain ⟨c0, rest, hd⟩ := List.exists_cons_of_ne_nil hne
              exact ((sliceChannel_isSome_iff _ _ _).mp
                (hall c0 (by rw [hd]; exact List.mem_cons_self c0 rest))).1
          · intro ch hch
            exact ((sliceChannel_isSome_iff _ _ _).mp (hall ch hch)).2
      · rintro ⟨e2, he2, hle, hch⟩
        have hee : e = e2 := by injection he2
        subst hee
        have htrav : (optionTraverse
            (sliceChannel (resolve_start_sample_pos a start_offset) e)
            a.data).isSome = true := by
          rw [optionTraverse_isSome_iff]
          intro ch hmem
          exact (sliceChannel_isSome_iff _ _ _).mpr ⟨hle, hch ch hmem⟩
        obtain ⟨d, hd⟩ := Option.isSome_iff_exists.mp htrav
        simp [hd]
  · cases hdur : duration with
    | some d => simp [resolve_end_sample_pos]
    | none =>
      cases hd : a.data with
      | nil => simp [resolve_end_sample_pos, hd]
      | cons c0 rest => simp [resolve_end_sample_pos, hd]

theorem ingest_nil (chunks : List Chunk) : ingest [] chunks = ([], false) := by
  simp [ingest]

theorem ingest_nil_right (bufs : List (List Chunk)) : ingest bufs [] = ([], false) := by
  simp [ingest]

theorem ingest_cons (b : List Chunk) (bs : List (List Chunk)) (c : Chunk)
    (cs : List Chunk) :
    ingest (b :: bs) (c :: cs) =
      ((ingestChannel b c).1 :: (ingest bs cs).1,
        (ingestChannel b c).2 || (ingest bs cs).2) := by
  simp [ingest, List.any_cons]

theorem ingestChannel_not_full (b : List Chunk) (c : Chunk)
    (h : b.length ≠ rec_buf_chunks) : ingestChannel b c = (b ++ [c], false) := by
  rw [ingestChannel, if_neg h]

theorem ingestChannel_at_capacity (b : List Chunk) (c : Chunk)
    (h : b.length = rec_buf_chunks) :
    ingestChannel b c = (b.drop 1 ++ [c], true) := by
  rw [ingestChannel, if_pos h]

theorem ingestChannel_snd_true (b : List Chunk) (c : Chunk)
    (h : (ingestChannel b c).2 = true) : b.length = rec_buf_chunks := by
  by_cases hb : b.length = rec_buf_chunks
  · exact hb
  · rw [ingestChannel_not_full b c hb] at h; simp at h

theorem ingest_trunc_all_full :
    ∀ (bufs : List (List Chunk)) (chunks : List Chunk),
      (∀ b1 ∈ bufs, ∀ b2 ∈ bufs, b1.length = b2.length) →
      (ingest bufs chunks).2 = true →
      ∀ b ∈ bufs, b.length = rec_buf_chunks := by
  intro bufs
  induction bufs with
  | nil => intro chunks _ h; rw [ingest_nil] at h; simp at h
  | cons b bs ih =>
    intro chunks heq h
    cases chunks with
    | nil => rw [ingest_nil_right] at h; simp at h
    | cons c cs =>
      rw [ingest_cons] at h
      have hb : b.length = rec_buf_chunks := by
        rcases Bool.or_eq_true_iff.mp h with h1 | h2
        · exact ingestChannel_snd_true b c h1
        · cases bs with
          | nil => rw [ingest_nil] at h2; simp at h2
          | cons b1 bs1 =>
            have hb1 : b1.length = rec_buf_chunks := by
              apply ih cs (fun x hx y hy =>
                heq x (List.mem_cons_of_mem b hx) y (List.mem_cons_of_mem b hy)) h2
              exact List.mem_cons_self b1 bs1
            exact (heq b (List.mem_cons_self b (b1 :: bs1)) b1
              (List.mem_cons_of_mem b (List.mem_cons_self b1 bs1))).trans hb1
      intro x hx
      exact (heq x hx b (List.mem_cons_self b bs)).trans hb

theorem ingest_trunc_eq :
    ∀ (bufs : List (List Chunk)) (chunks : List Chunk),
      (∀ b ∈ bufs, b.length = rec_buf_chunks) →
      (ingest bufs chunks).1 =
        List.zipWith (fun b c => b.drop 1 ++ [c]) bufs chunks := by
  intro bufs
  induction bufs with
  | nil => intro chunks _; rw [ingest_nil]; simp
  | cons b bs ih =>
    intro chunks hfull
    cases chunks with
    | nil => rw [ingest_nil_right]; simp
    | cons c cs =>
      rw [ingest_cons]
      simp only [List.zipWith_cons_cons]
      rw [ingestChannel_at_capacity b c (hfull b (List.mem_cons_self b bs))]
      rw [ih cs (fun x hx => hfull x (List.mem_cons_of_mem b hx))]

theorem ingest_uniform :
    ∀ (bufs : List (List Chunk)) (chunks : List Chunk) (n : ℕ),
      chunks.length = bufs.length → (∀ b ∈ bufs, b.length = n) →
      ((ingest bufs chunks).1.length = bufs.length ∧
        (∀ b' ∈ (ingest bufs chunks).1,
          b'.length = if n = rec_buf_chunks then n else n + 1) ∧
        ((ingest bufs chunks).2 = true ↔ (bufs ≠ [] ∧ n = rec_buf_chunks))) := by
  intro bufs
  induction bufs with
  | nil => intro chunks n hlen _; rw [ingest_nil]; simp
  | cons b bs ih =>
    intro chunks n hlen hn
    cases chunks with
    | nil => simp at hlen
    | cons c cs =>
      have hbn : b.length = n := hn b (List.mem_cons_self b bs)
      have hlen' : cs.length = bs.length := by simpa using hlen
      obtain ⟨ih1, ih2, ih3⟩ :=
        ih cs n hlen' (fun x hx => hn x (List.mem_cons_of_mem b hx))
      rw [ingest_cons]
      by_cases hfull : n = rec_buf_chunks
      · rw [ingestChannel_at_capacity b c (hbn.trans hfull)]
        refine ⟨by simpa using ih1, ?_, by simp [hfull]⟩
        intro b' hb'
        rcases List.mem_cons.mp hb' with rfl | hmem
        · have hge : 1 ≤ b.length := by rw [hbn, hfull]; norm_num [rec_buf_chunks]
          simp only [if_pos hfull, List.length_append, List.length_drop,
            List.length_cons, List.length_nil]
          omega
        · exact ih2 b' hmem
      · rw [ingestChannel_not_full b c (fun hc => hfull (hbn.symm.trans hc))]
        refine ⟨by simpa using ih1, ?_, ?_⟩
        · intro b' hb'
          rcases List.mem_cons.mp hb' with rfl | hmem
          · simp [if_neg hfull, hbn]
          · exact ih2 b' hmem
        · simp only [Bool.false_or, ih3]
          constructor
          · rintro ⟨_, hc⟩; exact absurd hc hfull
          · rintro ⟨_, hc⟩; exact absurd hc hfull

theorem drop_one_push (b : List Chunk) (c : Chunk) (k : ℤ)
    (h1 : 1 ≤ k) (h2 : k ≤ (b.length : ℤ)) :
    (b.drop 1 ++ [c]).drop (k - 1).toNat = (b ++ [c]).drop k.toNat := by
  have hk1 : 1 ≤ k.toNat := by omega
  have hkl : k.toNat ≤ b.length := by omega
  have h3 : (k - 1).toNat = k.toNat - 1 := by omega
  have hb1 : 1 ≤ b.length := le_trans hk1 hkl
  rw [h3]
  have hsplit : b.drop 1 ++ [c] = (b ++ [c]).drop 1 :=
    (List.drop_append_of_le_length hb1).symm
  rw [hsplit, List.drop_drop]
  congr 1
  omega

theorem transition_cases (cfg : InstallationProcessorConfig) (f : ℚ)
    (bufs : List (List Chunk)) (ls1 : ℤ) (av cv : ℚ) (st : ListeningState)
    (count : ℕ) (s' : RunState) (out : Option TriggerOutput)
    (h : transition cfg f bufs ls1 av cv st count = some (s', out)) :
    s'.recording_buffers = bufs ∧
      ((s'.listening_state = ListeningState.Active ∧
          ∃ b0, bufs.head? = some b0 ∧
            s'.recording_buffer_listen_start = (b0.length : ℤ) ∧
            rec_buf_chunks / 2 < b0.length) ∨
        (s'.listening_state = ListeningState.Active ∧
          st = ListeningState.Active ∧
          s'.recording_buffer_listen_start = ls1 ∧ ls1 ≠ 0) ∨
        s'.listening_state = ListeningState.Idle) := by
  cases st with
  | Idle =>
    cases hb : bufs.head? with
    | none => rw [transition, hb] at h; simp at h
    | some b0 =>
      rw [transition, hb] at h
      simp only [Option.bind_eq_bind, Option.some_bind] at h
      split at h
      case isTrue hcond =>
        injection h with h
        have hs : s' = _ := (congrArg Prod.fst h).symm
        subst hs
        exact ⟨rfl, Or.inl ⟨rfl, ⟨b0, rfl, rfl, hcond.1⟩⟩⟩
      case isFalse =>
        injection h with h
        have hs : s' = _ := (congrArg Prod.fst h).symm
        subst hs
        exact ⟨rfl, Or.inr (Or.inr rfl)⟩
  | Active =>
    rw [transition] at h
    split at h
    case isTrue =>
      cases htrav : optionTraverse (snippetOf ls1) bufs with
      | none => rw [htrav] at h; simp at h
      | some snips =>
        rw [htrav] at h
        simp only [Option.bind_eq_bind, Option.some_bind, Option.pure_def,
          Option.some_inj] at h
        have hs : s' = _ := (congrArg Prod.fst h).symm
        subst hs
        exact ⟨rfl, Or.inr (Or.inr rfl)⟩
    case isFalse hcond =>
      injection h with h
      have hs : s' = _ := (congrArg Prod.fst h).symm
      subst hs
      refine ⟨rfl, Or.inr (Or.inl ⟨rfl, rfl, rfl, ?_⟩)⟩
      intro h0
      exact hcond (Or.inl h0)

theorem step_preserves_inv (cfg : InstallationProcessorConfig)
    (inp : StepInput) (s s' : RunState) (out : Option TriggerOutput)
    (p : ProcessorState)
    (hlen : inp.chunks.length = s.recording_buffers.length)
    (hinv : BufInv s) (h : step cfg inp s = some (s', out, p)) : BufInv s' := by
  obtain ⟨hcap, heq, hactive⟩ := hinv
  obtain ⟨av, cv, hav, hcv, htr, _⟩ := step_some_inv cfg inp s s' out p h
  obtain ⟨hbufs, hcases⟩ := transition_cases _ _ _ _ _ _ _ _ _ _ htr
  have hn : ∀ b ∈ s.recording_buffers,
      b.length = (s.recording_buffers.head?.getD []).length := by
    intro b hb
    cases hsb : s.recording_buffers with
    | nil => rw [hsb] at hb; simp at hb
    | cons b0 rest =>
      simp only [List.head?_cons, Option.getD_some]
      refine heq b hb b0 ?_
      rw [hsb]
      exact List.mem_cons_self b0 rest
  have hcap0 : (s.recording_buffers.head?.getD []).length ≤ rec_buf_chunks := by
    cases hsb : s.recording_buffers with
    | nil => simp
    | cons b0 rest =>
      simp only [List.head?_cons, Option.getD_some]
      refine hcap b0 ?_
      rw [hsb]
      exact List.mem_cons_self b0 rest
  obtain ⟨hu1, hu2, hu3⟩ := ingest_uniform s.recording_buffers inp.chunks
    (s.recording_buffers.head?.getD []).length hlen hn
  have hcap' : ∀ b' ∈ (ingest s.recording_buffers inp.chunks).1,
      b'.length ≤ rec_buf_chunks := by
    intro b' hb'
    rw [hu2 b' hb']
    by_cases hc : (s.recording_buffers.head?.getD []).length = rec_buf_chunks
    · rw [if_pos hc]; exact hcap0
    · rw [if_neg hc]; omega
  have heq' : ∀ b1 ∈ (ingest s.recording_buffers inp.chunks).1,
      ∀ b2 ∈ (ingest s.recording_buffers inp.chunks).1,
        b1.length = b2.length := by
    intro b1 hb1 b2 hb2
    rw [hu2 b1 hb1, hu2 b2 hb2]
  have hls1 : s.listening_state = ListeningState.Active →
      0 ≤ listenStartAfterIngest s.recording_buffer_listen_start
          (ingest s.recording_buffers inp.chunks).2 ∧
      ∀ b' ∈ (ingest s.recording_buffers inp.chunks).1,
        listenStartAfterIngest s.recording_buffer_listen_start
          (ingest s.recording_buffers inp.chunks).2 ≤ (b'.length : ℤ) := by
    intro hact
    obtain ⟨hge, hle⟩ := hactive hact
    have hlsb0 : s.recording_buffers ≠ [] →
        s.recording_buffer_listen_start ≤
          ((s.recording_buffers.head?.getD []).length : ℤ) := by
      intro hne
      obtain ⟨b0, rest, hsb⟩ := List.exists_cons_of_ne_nil hne
      have := hle b0 (by rw [hsb]; exact List.mem_cons_self b0 rest)
      rw [hsb]
      simpa using this
    cases htrunc : (ingest s.recording_buffers inp.chunks).2 with
    | true =>
      obtain ⟨hne, hfull⟩ := hu3.mp htrunc
      have hb0 := hlsb0 hne
      rw [listenStartAfterIngest]
      simp only [if_pos]
      constructor
      · omega
      · intro b' hb'
        rw [hu2 b' hb', if_pos hfull]
        omega
    | false =>
      rw [listenStartAfterIngest]
      simp only [Bool.false_eq_true, if_false]
      constructor
      · omega
      · intro b' hb'
        have hne : s.recording_buffers ≠ [] := by
          intro hnil
          rw [hnil, ingest_nil] at hb'
          simp at hb'
        have hb0 := hlsb0 hne
        rw [hu2 b' hb']
        by_cases hc : (s.recording_buffers.head?.getD []).length = rec_buf_chunks
        · rw [if_pos hc]; omega
        · rw [if_neg hc]; push_cast; omega
  refine ⟨?_, ?_, ?_⟩
  · intro b hb
    rw [hbufs] at hb
    exact hcap' b hb
  · intro b1 hb1 b2 hb2
    rw [hbufs] at hb1 hb2
    exact heq' b1 hb1 b2 hb2
  · intro hact'
    rcases hcases with ⟨_, b0, hb0, hlseq, hgt⟩ | ⟨_, hact, hlseq, hne0⟩ | hidle
    · have hb0mem : b0 ∈ (ingest s.recording_buffers inp.chunks).1 := by
        cases hi : (ingest s.recording_buffers inp.chunks).1 with
        | nil => rw [hi] at hb0; simp at hb0
        | cons x xs =>
          rw [hi] at hb0
          simp only [List.head?_cons, Option.some_inj] at hb0
          rw [← hb0]
          exact List.mem_cons_self x xs
      constructor
      · rw [hlseq]
        have h512 : rec_buf_chunks / 2 < b0.length := hgt
        omega
      · intro b hb
        rw [hbufs] at hb
        rw [hlseq]
        exact_mod_cast le_of_eq (heq' b0 hb0mem b hb)
    · obtain ⟨hge0, hle'⟩ := hls1 hact
      constructor
      · rw [hlseq]
        omega
      · intro b hb
        rw [hbufs] at hb
        rw [hlseq]
        exact hle' b hb
    · rw [hact'] at hidle
      exact absurd hidle (by simp)

theorem reachable_inv (cfg : InstallationProcessorConfig) (s : RunState)
    (h : Reachable cfg s) : BufInv s := by
  induction h with
  | init =>
    refine ⟨?_, ?_, ?_⟩
    · intro b hb
      rw [List.eq_of_mem_replicate hb]
      simp
    · intro b1 hb1 b2 hb2
      rw [List.eq_of_mem_replicate hb1, List.eq_of_mem_replicate hb2]
    · intro hact
      exact absurd hact (by simp [initialState])
  | next s inp s' out p hs hlen hstep ih =>
    exact step_preserves_inv cfg inp s s' out p hlen ih hstep

theorem chunked_replicate_empty (a : ℚ) (W : ℕ) (n : ℕ) :
    chunked_moving_average_amp a W [List.replicate (n + 1) ([] : Chunk)] =
      some (a * (((W : ℕ) : ℚ) / (W : ℚ))) := by
  have hlast : (List.replicate (n + 1) ([] : Chunk)).getLast? = some [] := by
    rw [List.replicate_succ']
    exact List.getLast?_concat _
  rw [chunked_moving_average_amp]
  simp only [List.head?_cons, Option.some_bind, Option.bind_eq_bind, hlast]
  rw [if_pos (by simp)]
  rw [optionTraverse_cons, hlast]
  simp [optionTraverse_nil, chunkAbsSum]

theorem pump_zero_eq_initial : pump 0 = initialState cfgHalf.spec.channels := rfl

unseal Rat.mul Rat.add Rat.sub Rat.inv in
theorem pump_amp_zero (W : ℕ) (n : ℕ) :
    chunked_moving_average_amp 0 W [List.replicate (n + 1) ([] : Chunk)] =
      some 0 := by
  rw [chunked_replicate_empty]
  norm_num

theorem pump_step (n : ℕ) (h : n < rec_buf_chunks) :
    step cfgHalf inputEmptyChunk (pump n) =
      some (pump (n + 1), none, ProcessorState.Running) := by
  have hne : (List.replicate n ([] : Chunk)).length ≠ rec_buf_chunks := by
    simp
    omega
  have hing : ingest [List.replicate n ([] : Chunk)] [([] : Chunk)] =
      ([List.replicate (n + 1) ([] : Chunk)], false) := by
    rw [ingest_cons, ingest_nil, ingestChannel_not_full _ _ hne]
    simp [List.replicate_succ']
  have hcond : ¬(rec_buf_chunks / 2 <
      (List.replicate (n + 1) ([] : Chunk)).length ∧
      (0 : ℚ) * cfgHalf.amp_activation_factor < 0) := by
    rintro ⟨_, hc⟩
    simp at hc
  rw [step]
  simp only [pump, inputEmptyChunk, hing, listenStartAfterIngest,
    Bool.false_eq_true, if_false, pump_amp_zero, Option.bind_eq_bind,
    Option.some_bind]
  rw [transition]
  simp only [List.head?_cons, Option.some_bind, Option.bind_eq_bind]
  rw [if_neg hcond]
  rfl

theorem reachable_pump (n : ℕ) (h : n ≤ rec_buf_chunks) :
    Reachable cfgHalf (pump n) := by
  induction n with
  | zero =>
    have h0 : Reachable cfgHalf (initialState cfgHalf.spec.channels) :=
      Reachable.init
    rwa [← pump_zero_eq_initial] at h0
  | succ m ih =>
    refine Reachable.next (pump m) inputEmptyChunk (pump (m + 1)) none
      ProcessorState.Running (ih (by omega)) (by rfl) ?_
    exact pump_step m (by omega)

theorem zipWith_congr_of_mem {A B C : Type} (f g : A → B → C) :
    ∀ (l1 : List A) (l2 : List B),
      (∀ a ∈ l1, ∀ b ∈ l2, f a b = g a b) →
      List.zipWith f l1 l2 = List.zipWith g l1 l2 := by
  intro l1
  induction l1 with
  | nil => intro l2 _; simp
  | cons a as ih =>
    intro l2 h
    cases l2 with
    | nil => simp
    | cons b bs =>
      simp only [List.zipWith_cons_cons]
      rw [h a (List.mem_cons_self a as) b (List.mem_cons_self b bs)]
      rw [ih bs (fun x hx y hy =>
        h x (List.mem_cons_of_mem a hx) y (List.mem_cons_of_mem b hy))]

unseal Rat.mul Rat.add Rat.sub Rat.inv in
set_option maxRecDepth 8000 in
/-- Counterexample for C4: at the reachable `Idle` state with a full ring
(`pump 1024`), ingesting one more chunk truncates and decrements the
listen-start index from 0 to -1 although the machine is not `Active` — the
decrement on line 121 is unconditional, not "exactly when Active". -/
theorem c4_decrement_in_idle_counterexample :
    Reachable cfgHalf (pump 1024) ∧
    (pump 1024).listening_state = ListeningState.Idle ∧
    (ingest (pump 1024).recording_buffers inputEmptyChunk.chunks).2 = true ∧
    step cfgHalf inputEmptyChunk (pump 1024) =
      some (pumpAfterOverflow, none, ProcessorState.Running) ∧
    pumpAfterOverflow.recording_buffer_listen_start =
      (pump 1024).recording_buffer_listen_start - 1 := by
  exact ⟨reachable_pump 1024 (Nat.le_refl 1024), rfl, by decide, by decide,
    by decide⟩

/-- C4 as amended: whenever an ingest step overflows the recording ring
(capacity `rec_buf_chunks` reached), the front chunk is dropped before the
push in every channel, and the listen-start index is decremented by one
unconditionally (in `Idle` as well as in `Active`, where it is harmless
because the index is reset on the next transition); after truncation while
`Active` the listen-start index is non-negative and designates the same
underlying sample as before the truncation (the chunk suffix selected by
the decremented index in the rotated ring equals the suffix the old index
selected before the front chunk was dropped). -/
theorem c4_truncation_amended (cfg : InstallationProcessorConfig)
    (inp : StepInput) (s : RunState) (hr : Reachable cfg s)
    (hlen : inp.chunks.length = s.recording_buffers.length)
    (htr : (ingest s.recording_buffers inp.chunks).2 = true) :
    (ingest s.recording_buffers inp.chunks).1 =
      List.zipWith (fun b c => b.drop 1 ++ [c]) s.recording_buffers
        inp.chunks ∧
    listenStartAfterIngest s.recording_buffer_listen_start
      (ingest s.recording_buffers inp.chunks).2 =
      s.recording_buffer_listen_start - 1 ∧
    (s.listening_state = ListeningState.Active →
      0 ≤ s.recording_buffer_listen_start - 1 ∧
      List.zipWith (fun b c =>
          (b.drop 1 ++ [c]).drop
            (s.recording_buffer_listen_start - 1).toNat)
        s.recording_buffers inp.chunks =
      List.zipWith (fun b c =>
          (b ++ [c]).drop s.recording_buffer_listen_start.toNat)
        s.recording_buffers inp.chunks) := by
  obtain ⟨hcap, heq, hactive⟩ := reachable_inv cfg s hr
  have hall : ∀ b ∈ s.recording_buffers, b.length = rec_buf_chunks :=
    ingest_trunc_all_full s.recording_buffers inp.chunks heq htr
  refine ⟨ingest_trunc_eq s.recording_buffers inp.chunks hall, ?_, ?_⟩
  · rw [htr, listenStartAfterIngest, if_pos rfl]
  · intro hact
    obtain ⟨hge, hle⟩ := hactive hact
    refine ⟨by omega, ?_⟩
    apply zipWith_congr_of_mem
    intro b hb c _
    exact drop_one_push b c s.recording_buffer_listen_start hge (hle b hb)

unseal Rat.mul Rat.add Rat.sub Rat.inv in
set_option maxRecDepth 8000 in
/-- Witness for C4 as amended: the overflowing ingest at the reachable full
ring state `pump 1024`. -/
theorem c4_truncation_amended_witness :
    (ingest (pump 1024).recording_buffers inputEmptyChunk.chunks).1 =
      List.zipWith (fun b c => b.drop 1 ++ [c])
        (pump 1024).recording_buffers inputEmptyChunk.chunks ∧
    listenStartAfterIngest (pump 1024).recording_buffer_listen_start
      (ingest (pump 1024).recording_buffers inputEmptyChunk.chunks).2 =
      (pump 1024).recording_buffer_listen_start - 1 ∧
    ((pump 1024).listening_state = ListeningState.Active →
      0 ≤ (pump 1024).recording_buffer_listen_start - 1 ∧
      List.zipWith (fun b c =>
          (b.drop 1 ++ [c]).drop
            ((pump 1024).recording_buffer_listen_start - 1).toNat)
        (pump 1024).recording_buffers inputEmptyChunk.chunks =
      List.zipWith (fun b c =>
          (b ++ [c]).drop (pump 1024).recording_buffer_listen_start.toNat)
        (pump 1024).recording_buffers inputEmptyChunk.chunks) :=
  c4_truncation_amended cfgHalf inputEmptyChunk (pump 1024)
    (reachable_pump 1024 (Nat.le_refl 1024)) rfl (by decide)
